import Mathlib

/-
Verification development for `nsrdb_bulk_download.py`: a bulk NSRDB CSV
downloader over a lat/lon grid.  One CSV per (year, lat, lon); safe to
stop/resume.

The embedding models, per work item, the three filesystem slots the script
touches (the final artifact path, its `.part` temporary sibling, and its
`.err.txt` error-record sibling), the fetch/classify logic of `fetch_csv`,
the retry wrapper, the per-item body of `main`'s loop, the grid enumerator
`frange`/`generate_points` over exact rationals, and the artifact-path
formatting `nsrdb_{year}_{lat:.4f}_{lon:.4f}.csv`.

Text (file contents, error messages, file names) is modelled as `List
Char` so that everything evaluates by kernel reduction on concrete
inputs.
-/

/-- `strStarts needle hay`: `needle` is an initial segment of `hay`. -/
def strStarts : List Char → List Char → Bool
  | [], _ => true
  | _ :: _, [] => false
  | c :: cs, h :: hs => c == h && strStarts cs hs

/-- `strOccurs needle hay`: `needle` occurs contiguously inside `hay`. -/
def strOccurs (needle : List Char) : List Char → Bool
  | [] => needle.isEmpty
  | h :: hs => strStarts needle (h :: hs) || strOccurs needle hs

/-- Split a character list on a separator character; the result always
has one more group than there are separators (Python `str.split`). -/
def splitOnChar (sep : Char) : List Char → List (List Char)
  | [] => [[]]
  | c :: cs =>
    if c == sep then [] :: splitOnChar sep cs
    else
      match splitOnChar sep cs with
      | [] => [[c]]
      | g :: gs => (c :: g) :: gs

/-- Case-insensitive substring test used by the validity check:
Python `"GHI" in h.upper()`. -/
def containsGHI (h : List Char) : Bool :=
  strOccurs "GHI".toList (h.map Char.toUpper)

/-- Model of `csv.reader(f); next(r, None)` on the file content for
unquoted CSV: the first row, split on commas.  `none` for an empty file
(no rows at all); a blank first line parses as the empty row `[]`. -/
def parseHeader (s : List Char) : Option (List (List Char)) :=
  match splitOnChar '\n' s with
  | [] => none
  | line :: rest =>
    if line = [] then (if rest = [] then none else some [])
    else some (splitOnChar ',' line)

/-- `looks_like_valid_csv` from the source, over the content found at the
path (`none` = file absent or unreadable, which the `except` clause maps
to `False`): the header row must exist, be non-empty, and some column name
must contain `"GHI"` case-insensitively. -/
def looks_like_valid_csv (f : Option (List Char)) : Bool :=
  match f with
  | none => false
  | some s =>
    match parseHeader s with
    | none => false
    | some header => !header.isEmpty && header.any containsGHI

/-- The filesystem slots one work item can touch: the final artifact path
`out_path`, the temporary `out_path.with_suffix(".part")`, and the error
record `out_path.with_suffix(".err.txt")`.  `none` means the file is
absent. -/
structure ItemFS where
  artifact : Option (List Char)
  tmp : Option (List Char)
  err : Option (List Char)
deriving DecidableEq, Repr

/-- What the network returns for one attempt: either `requests.get`
raises (timeout, connection reset, ...) or an HTTP response with a status
code and the streamed body chunks of `iter_content`. -/
inductive Response where
  | netError (msg : List Char)
  | http (status : Nat) (chunks : List (List Char))
deriving DecidableEq, Repr

/-- Errors out of one `fetch_csv` call: `apiError` is the script's own
`ApiError`; `netErr` is an exception raised by the `requests` library
itself, which is not an `ApiError`. -/
inductive FetchErr where
  | apiError (msg : List Char)
  | netErr (msg : List Char)
deriving DecidableEq, Repr

/-- Equality of fetch results is decidable (used to evaluate the model on
concrete inputs). -/
instance : DecidableEq (Except FetchErr ItemFS) := fun a b =>
  match a, b with
  | .ok x, .ok y => decidable_of_iff (x = y) (by simp)
  | .error x, .error y => decidable_of_iff (x = y) (by simp)
  | .ok _, .error _ => isFalse (by simp)
  | .error _, .ok _ => isFalse (by simp)

/-- Decimal rendering of a natural number, little-endian digit
extraction with fuel (`n + 1` is always enough fuel for `n`). -/
def natDigitsRev : Nat → Nat → List Nat
  | 0, _ => []
  | fuel + 1, n => if n = 0 then [] else n % 10 :: natDigitsRev fuel (n / 10)

/-- The ASCII digit character for a digit value. -/
def digitChar (d : Nat) : Char :=
  Char.ofNat (48 + d)

/-- Decimal rendering of a natural number (Python `str(n)`). -/
def natStr (n : Nat) : List Char :=
  if n = 0 then ['0'] else ((natDigitsRev (n + 1) n).reverse.map digitChar)

/-- The bytes that reach the temporary file: `iter_content` chunks,
skipping falsy (empty) chunks, concatenated. -/
def writtenBody (chunks : List (List Char)) : List Char :=
  (chunks.filter (fun c => c ≠ [])).flatten

/-- One attempt of `fetch_csv(url, params, out_path)` given the network's
response: status 429 raises `ApiError("Rate limited (429). Retrying...")`;
any other status ≥ 400 raises `ApiError` with the status and a 200-char
excerpt of the body; otherwise the body is streamed to the `.part` path
and `tmp.replace(out_path)` atomically renames it over the artifact. -/
def fetch_csv (r : Response) (fs : ItemFS) : Except FetchErr ItemFS :=
  match r with
  | .netError m => .error (.netErr m)
  | .http status chunks =>
    if status = 429 then .error (.apiError "Rate limited (429). Retrying...".toList)
    else if 400 ≤ status then
      .error (.apiError ("HTTP ".toList ++ natStr status ++ ": ".toList ++ chunks.flatten.take 200))
    else .ok { fs with tmp := none, artifact := some (writtenBody chunks) }

/-- The intermediate filesystem states of the success path of `fetch_csv`,
before the final rename: after opening the `.part` file (truncating it)
and after each chunk write, the temporary path holds the prefix written so
far and nothing else has changed. -/
def writeStates (fs : ItemFS) (chunks : List (List Char)) : List ItemFS :=
  (List.range ((chunks.filter (fun c => c ≠ [])).length + 1)).map
    (fun k => { fs with tmp := some ((chunks.filter (fun c => c ≠ [])).take k).flatten })

/-- Modelled from the spec: the wait schedule of the `tenacity` retry
decorator `wait_exponential(multiplier=1, min=1, max=60)` (the library is
an external collaborator; spec §4.4: initial wait 1 time-unit, doubling
each attempt, capped at 60 time-units). `backoffWait k` is the wait after
the `(k+1)`-th failed attempt. -/
def backoffWait (k : Nat) : Nat :=
  min 60 (2 ^ k)

/-- Modelled from the spec: the `tenacity` retry driver
`@retry(reraise=True, retry=retry_if_exception_type(ApiError),
stop=stop_after_attempt(6))` (the library is an external collaborator;
spec §4.4: maximum 6 total attempts, re-raises the last error, and
non-`Transient` errors bypass retry and propagate immediately).
`retryGo k budget rs fs` runs attempt `k+1` with `budget` attempts left,
consuming one response per attempt; it returns the result, the number of
attempts actually made, and the waits slept between attempts. -/
def retryGo : Nat → Nat → List Response → ItemFS → (Except FetchErr ItemFS) × Nat × List Nat
  | _, 0, _, _ => (.error (.apiError "no attempts".toList), 0, [])
  | k, budget + 1, rs, fs =>
    match fetch_csv (rs.headD (.netError "connection error".toList)) fs with
    | .ok fs2 => (.ok fs2, 1, [])
    | .error (.netErr m) => (.error (.netErr m), 1, [])
    | .error (.apiError m) =>
      match budget with
      | 0 => (.error (.apiError m), 1, [])
      | _ + 1 =>
        ((retryGo (k + 1) budget rs.tail fs).1,
         (retryGo (k + 1) budget rs.tail fs).2.1 + 1,
         backoffWait k :: (retryGo (k + 1) budget rs.tail fs).2.2)

/-- The retry-wrapped `fetch_csv`: up to 6 total attempts. -/
def retryFetch (rs : List Response) (fs : ItemFS) : (Except FetchErr ItemFS) × Nat × List Nat :=
  retryGo 0 6 rs fs

/-- The per-item resume check of `main`:
`out_path.exists() and looks_like_valid_csv(out_path)`. -/
def skipCheck (fs : ItemFS) : Bool :=
  fs.artifact.isSome && looks_like_valid_csv fs.artifact

/-- The `ApiError` message raised when a downloaded file fails the
validity check. -/
def invalidMsg : List Char :=
  "Downloaded file didn’t look like NSRDB CSV; will retry later.".toList

/-- Terminal state of one work item in one run of the batch loop. -/
inductive Outcome where
  | skip
  | published
  | failed (msg : List Char)
deriving DecidableEq, Repr

/-- The body of `main`'s inner loop for one work item, given the
responses the network would supply to successive attempts: skip if a
valid artifact exists; otherwise run the retry-wrapped fetch; on fetch
success re-validate, deleting the file (`unlink`) and raising `ApiError`
if invalid; any exception is caught and written to the `.err.txt`
sidecar.  Returns the final filesystem, the outcome, and the number of
network calls issued. -/
def processItem (rs : List Response) (fs : ItemFS) : ItemFS × Outcome × Nat :=
  if skipCheck fs then (fs, .skip, 0)
  else
    match retryGo 0 6 rs fs with
    | (.ok fs2, n, _) =>
      if looks_like_valid_csv fs2.artifact then (fs2, .published, n)
      else ({ fs2 with artifact := none, err := some invalidMsg }, .failed invalidMsg, n)
    | (.error (.apiError m), n, _) => ({ fs with err := some m }, .failed m, n)
    | (.error (.netErr m), n, _) => ({ fs with err := some m }, .failed m, n)

/-- The batch loop of `main` over its work items, each with its own
filesystem slots (paths are distinct per item) and its own network
responses: every item is processed, none can abort the loop. -/
def runBatch (items : List (ItemFS × List Response)) : List (ItemFS × Outcome) :=
  items.map (fun it => ((processItem it.2 it.1).1, (processItem it.2 it.1).2.1))

-- Grid enumeration, over exact rationals.

/-- The floating-point accumulation tolerance `1e-9` of `frange`. -/
def tol : ℚ := 1 / 1000000000

/-- Fuel-driven loop body of `frange`: `while x <= stop + 1e-9: yield x;
x += step`. -/
def frangeAux (stop step : ℚ) : Nat → ℚ → List ℚ
  | 0, _ => []
  | fuel + 1, x => if x ≤ stop + tol then x :: frangeAux stop step fuel (x + step) else []

/-- The number of iterations the loop performs from `x` (for a positive
step): `⌊(stop + tol - x) / step⌋ + 1`, clamped at 0. -/
def frangeCount (stop step x : ℚ) : Nat :=
  (⌊(stop + tol - x) / step⌋ + 1).toNat

/-- `frange(start, stop, step)` from the source. -/
def frange (start stop step : ℚ) : List ℚ :=
  frangeAux stop step (frangeCount stop step start) start

/-- Python `round(x, 6)` (away from ties, where Python rounds
half-to-even; the grids in scope do not hit ties). -/
def round6 (q : ℚ) : ℚ :=
  (round (q * 1000000) : ℤ) / 1000000

/-- Bounding box of the grid, as in the `bbox` config mapping. -/
structure Bbox where
  lat_min : ℚ
  lat_max : ℚ
  lon_min : ℚ
  lon_max : ℚ
deriving DecidableEq, Repr

/-- `generate_points(bbox, dlon, dlat)` from the source: latitudes outer,
longitudes inner, each coordinate rounded to 6 decimal places. -/
def generate_points (bbox : Bbox) (dlon dlat : ℚ) : List (ℚ × ℚ) :=
  (frange bbox.lat_min bbox.lat_max dlat).flatMap
    (fun lat => (frange bbox.lon_min bbox.lon_max dlon).map
      (fun lon => (round6 lat, round6 lon)))


-- Artifact paths: `<out_root>/<year>/nsrdb_<year>_<lat:.4f>_<lon:.4f>.csv`.

/-- Decimal rendering of an integer (Python `str(z)`). -/
def intStr (z : ℤ) : List Char :=
  (if z < 0 then ['-'] else []) ++ natStr z.natAbs

/-- The fractional part of `%.4f` formatting: zero-padded to 4 digits. -/
def pad4 (b : Nat) : List Char :=
  List.replicate (4 - (natStr b).length) '0' ++ natStr b

/-- Python `f"{q:.4f}"`: the coordinate rounded to 4 decimal places and
rendered with exactly 4 fractional digits (sign taken from the value;
ties, where Python rounds half-to-even, do not occur on the grids in
scope). -/
def fmt4 (q : ℚ) : List Char :=
  (if q < 0 then ['-'] else []) ++
    natStr ((round (q * 10000)).natAbs / 10000) ++
      '.' :: pad4 ((round (q * 10000)).natAbs % 10000)

/-- The artifact file name
`f"nsrdb_{year}_{lat:.4f}_{lon:.4f}.csv"` from `main`. -/
def fname (year : ℤ) (lat lon : ℚ) : List Char :=
  "nsrdb_".toList ++ (intStr year ++ '_' :: (fmt4 lat ++ '_' :: (fmt4 lon ++ ".csv".toList)))

/-- A `pathlib` path split as parent directory and final component. -/
structure PathPair where
  dir : List Char
  name : List Char
deriving DecidableEq, Repr

/-- `year_dir = out_root / f"{year}"` from `main`. -/
def year_dir (out_root : List Char) (year : ℤ) : List Char :=
  out_root ++ '/' :: intStr year

/-- `out_path = year_dir / fname` from `main`. -/
def out_path (out_root : List Char) (year : ℤ) (lat lon : ℚ) : PathPair :=
  ⟨year_dir out_root year, fname year lat lon⟩

/-- `pathlib.PurePath.with_suffix` on a final path component: replace
everything from the last dot on (or append, if the name has no dot). -/
def with_suffix (name suffix : List Char) : List Char :=
  if '.' ∈ name then ((name.reverse.dropWhile (fun c => c ≠ '.')).drop 1).reverse ++ suffix
  else name ++ suffix

/-- `tmp = out_path.with_suffix(".part")` from `fetch_csv`: only the
final component changes, the parent directory is untouched. -/
def tmp_path (out_root : List Char) (year : ℤ) (lat lon : ℚ) : PathPair :=
  ⟨year_dir out_root year, with_suffix (fname year lat lon) ".part".toList⟩

/-- `out_path.with_suffix(".err.txt")` from `main`'s failure handler. -/
def err_path (out_root : List Char) (year : ℤ) (lat lon : ℚ) : PathPair :=
  ⟨year_dir out_root year, with_suffix (fname year lat lon) ".err.txt".toList⟩

-- Lemmas about the retry driver.

theorem retryGo_attempts_le : ∀ (b k : Nat) (rs : List Response) (fs : ItemFS),
    (retryGo k b rs fs).2.1 ≤ b := by
  intro b
  induction b with
  | zero => intro k rs fs; simp [retryGo]
  | succ n ih =>
    intro k rs fs
    simp only [retryGo]
    rcases hf : fetch_csv (rs.headD (.netError "connection error".toList)) fs with e | fs2
    · rcases e with m | m
      · cases n with
        | zero => simp
        | succ n2 =>
          have h2 := ih (k + 1) rs.tail fs
          simp only []
          omega
      · simp
    · simp

theorem retryGo_attempts_pos (b k : Nat) (rs : List Response) (fs : ItemFS) :
    1 ≤ (retryGo k (b + 1) rs fs).2.1 := by
  simp only [retryGo]
  rcases hf : fetch_csv (rs.headD (.netError "connection error".toList)) fs with e | fs2
  · rcases e with m | m
    · cases b with
      | zero => simp
      | succ n2 => simp only []; omega
    · simp
  · simp

theorem fetch_csv_ok_shape (r : Response) (fs fs2 : ItemFS)
    (h : fetch_csv r fs = .ok fs2) :
    ∃ chunks, fs2 = { fs with tmp := none, artifact := some (writtenBody chunks) } := by
  rcases r with m | ⟨st, chunks⟩
  · simp [fetch_csv] at h
  · simp only [fetch_csv] at h
    split at h
    · simp at h
    · split at h
      · simp at h
      · refine ⟨chunks, ?_⟩
        simp at h
        exact h.symm

theorem retryGo_ok_shape : ∀ (b k : Nat) (rs : List Response) (fs fs2 : ItemFS),
    (retryGo k b rs fs).1 = .ok fs2 →
    ∃ chunks, fs2 = { fs with tmp := none, artifact := some (writtenBody chunks) } := by
  intro b
  induction b with
  | zero => intro k rs fs fs2 h; simp [retryGo] at h
  | succ n ih =>
    intro k rs fs fs2 h
    simp only [retryGo] at h
    rcases hf : fetch_csv (rs.headD (.netError "connection error".toList)) fs with e | fs3
    · rw [hf] at h
      rcases e with m | m
      · cases n with
        | zero => simp at h
        | succ n2 =>
          simp only [] at h
          exact ih (k + 1) rs.tail fs fs2 h
      · simp at h
    · rw [hf] at h
      simp at h
      rw [← h]
      exact fetch_csv_ok_shape _ fs fs3 hf

theorem retryGo_api_step (k b : Nat) (r : Response) (rs : List Response) (fs : ItemFS)
    (m : List Char) (h : fetch_csv r fs = .error (.apiError m)) :
    retryGo k (b + 1 + 1) (r :: rs) fs
      = ((retryGo (k + 1) (b + 1) rs fs).1,
         (retryGo (k + 1) (b + 1) rs fs).2.1 + 1,
         backoffWait k :: (retryGo (k + 1) (b + 1) rs fs).2.2) := by
  simp only [retryGo, List.headD_cons, List.tail_cons, h]

theorem retryGo_net_step (b k : Nat) (m : List Char) (rs : List Response) (fs : ItemFS) :
    retryGo k (b + 1) (.netError m :: rs) fs = (.error (.netErr m), 1, []) := by
  simp only [retryGo, List.headD_cons, fetch_csv]

/-- Claim C1: a work item whose artifact already exists at its target
path and passes the validity check is skipped outright — zero network
calls, filesystem (in particular the artifact) unchanged, terminal
outcome `skip`. -/
theorem C1_skip_no_network (rs : List Response) (fs : ItemFS)
    (h : skipCheck fs = true) :
    processItem rs fs = (fs, .skip, 0) := by
  simp [processItem, h]

/-- Witness for C1: a valid artifact on disk, a network that would answer
429; the item is skipped with zero network calls and nothing changes. -/
theorem C1_skip_no_network_witness :
    skipCheck ⟨some "Year,Month,GHI\n1,2,3".toList, none, none⟩ = true ∧
    processItem [.http 429 []] ⟨some "Year,Month,GHI\n1,2,3".toList, none, none⟩
      = (⟨some "Year,Month,GHI\n1,2,3".toList, none, none⟩, .skip, 0) :=
  ⟨by decide, C1_skip_no_network [.http 429 []] _ (by decide)⟩

/-- Claim C3: the retry wrapper makes at most 6 total attempts; waits
start at 1 time-unit, double each attempt, and are capped at 60; after
the 6th failed attempt the last error is re-raised; five 429s then a 200
succeed in 6 calls; six 429s exhaust the retries and the item ends as a
failure with an error record. -/
theorem C3_retry_backoff :
    (∀ rs fs, (retryFetch rs fs).2.1 ≤ 6) ∧
    backoffWait 0 = 1 ∧
    (∀ k, backoffWait (k + 1) = min 60 (2 * backoffWait k)) ∧
    (∀ k, backoffWait k ≤ 60) ∧
    retryFetch (List.replicate 6 (.http 429 [])) ⟨none, none, none⟩
      = (.error (.apiError "Rate limited (429). Retrying...".toList), 6, [1, 2, 4, 8, 16]) ∧
    processItem (List.replicate 5 (.http 429 []) ++ [.http 200 ["Year,Month,GHI\n1,2,3".toList]])
        ⟨none, none, none⟩
      = (⟨some "Year,Month,GHI\n1,2,3".toList, none, none⟩, .published, 6) ∧
    processItem (List.replicate 6 (.http 429 [])) ⟨none, none, none⟩
      = (⟨none, none, some "Rate limited (429). Retrying...".toList⟩,
         .failed "Rate limited (429). Retrying...".toList, 6) := by
  refine ⟨fun rs fs => retryGo_attempts_le 6 0 rs fs, by decide, ?_,
    fun k => Nat.min_le_left _ _, by decide, by decide, by decide⟩
  intro k
  simp only [backoffWait, pow_succ]
  omega

/-- Counterexample for C4: a network-level failure (connection reset) is
not retried — the wrapper propagates it after a single call even though a
retry would have succeeded, while a 429 in the same position does get the
second attempt.  The item fails after exactly 1 network call. -/
theorem C4_cex :
    retryFetch [.netError "connection reset".toList, .http 200 ["Year,GHI\n1".toList]]
        ⟨none, none, none⟩
      = (.error (.netErr "connection reset".toList), 1, []) ∧
    (retryFetch [.http 429 [], .http 200 ["Year,GHI\n1".toList]] ⟨none, none, none⟩).1
      = .ok ⟨some "Year,GHI\n1".toList, none, none⟩ ∧
    processItem [.netError "connection reset".toList, .http 200 ["Year,GHI\n1".toList]]
        ⟨none, none, none⟩
      = (⟨none, none, some "connection reset".toList⟩, .failed "connection reset".toList, 1) :=
  ⟨by decide, by decide, by decide⟩

/-- Amended C4: HTTP 429 and any status ≥ 400 raise `ApiError` and are
eligible for retry (a further attempt is made when one is available), but
network-level failures raise a non-`ApiError` exception that bypasses the
retry wrapper and propagates after a single attempt. -/
theorem C4_amended :
    (∀ chunks fs, fetch_csv (.http 429 chunks) fs
      = .error (.apiError "Rate limited (429). Retrying...".toList)) ∧
    (∀ status chunks fs, 400 ≤ status →
      ∃ m, fetch_csv (.http status chunks) fs = .error (.apiError m)) ∧
    (∀ r rs fs m, fetch_csv r fs = .error (.apiError m) →
      2 ≤ (retryFetch (r :: rs) fs).2.1) ∧
    (∀ m rs fs, retryFetch (.netError m :: rs) fs = (.error (.netErr m), 1, [])) := by
  refine ⟨fun chunks fs => by simp [fetch_csv], ?_, ?_, ?_⟩
  · intro st chunks fs h
    by_cases h429 : st = 429
    · refine ⟨"Rate limited (429). Retrying...".toList, ?_⟩
      simp [fetch_csv, h429]
    · refine ⟨"HTTP ".toList ++ natStr st ++ ": ".toList ++ chunks.flatten.take 200, ?_⟩
      simp [fetch_csv, h429, h]
  · intro r rs fs m h
    have hstep := retryGo_api_step 0 4 r rs fs m h
    show 2 ≤ (retryGo 0 (4 + 1 + 1) (r :: rs) fs).2.1
    rw [hstep]
    have h2 : 1 ≤ (retryGo (0 + 1) (4 + 1) rs fs).2.1 := retryGo_attempts_pos 4 (0 + 1) rs fs
    dsimp only
    omega
  · intro m rs fs
    show retryGo 0 (5 + 1) (.netError m :: rs) fs = (.error (.netErr m), 1, [])
    exact retryGo_net_step 5 0 m rs fs

/-- Witness for the amended C4: a 500 response is classified `ApiError`;
a 429 followed by an available 200 leads to a second attempt. -/
theorem C4_amended_witness :
    (∃ m, fetch_csv (.http 500 ["server error".toList]) ⟨none, none, none⟩
      = .error (.apiError m)) ∧
    2 ≤ (retryFetch (.http 429 [] :: [.http 200 []]) ⟨none, none, none⟩).2.1 :=
  ⟨C4_amended.2.1 500 ["server error".toList] ⟨none, none, none⟩ (by decide),
   C4_amended.2.2.1 (.http 429 []) [.http 200 []] ⟨none, none, none⟩
     "Rate limited (429). Retrying...".toList (by decide)⟩

/-- Counterexample for C5: six good-status responses whose body fails the
validity check are available, yet the item makes exactly 1 network call —
the invalid-body condition is not retried within the run; it fails
immediately with an error record (the bad file is deleted). -/
theorem C5_cex :
    processItem (List.replicate 6 (.http 200 ["<html>server busy</html>".toList]))
        ⟨none, none, none⟩
      = (⟨none, none, some invalidMsg⟩, .failed invalidMsg, 1) := by decide

/-- Amended C5: a successful HTTP status whose body fails the validity
check is never counted as success — the bad file is deleted from the
final path and the item immediately becomes a failure with an error
record after a single fetch; it is not retried within the run (the next
run re-attempts it, since the artifact is gone). -/
theorem C5_amended (status : Nat) (chunks : List (List Char)) (rs : List Response) (fs : ItemFS)
    (hstatus : status < 400) (hskip : skipCheck fs = false)
    (hbad : looks_like_valid_csv (some (writtenBody chunks)) = false) :
    processItem (.http status chunks :: rs) fs
      = ({ fs with tmp := none, artifact := none, err := some invalidMsg },
         .failed invalidMsg, 1) ∧
    skipCheck { fs with tmp := none, artifact := none, err := some invalidMsg } = false := by
  have h429 : status ≠ 429 := by omega
  have hge : ¬ 400 ≤ status := by omega
  have hf : fetch_csv (.http status chunks) fs
      = .ok { fs with tmp := none, artifact := some (writtenBody chunks) } := by
    simp [fetch_csv, h429, hge]
  have hr : retryGo 0 (5 + 1) (.http status chunks :: rs) fs
      = (.ok { fs with tmp := none, artifact := some (writtenBody chunks) }, 1, []) := by
    simp only [retryGo, List.headD_cons, hf]
  constructor
  · show (if skipCheck fs then _ else _) = _
    rw [hskip]
    show (match retryGo 0 6 (.http status chunks :: rs) fs with
      | (.ok fs2, n, _) =>
        if looks_like_valid_csv fs2.artifact then (fs2, Outcome.published, n)
        else ({ fs2 with artifact := none, err := some invalidMsg }, .failed invalidMsg, n)
      | (.error (.apiError m), n, _) => ({ fs with err := some m }, .failed m, n)
      | (.error (.netErr m), n, _) => ({ fs with err := some m }, .failed m, n)) = _
    rw [show (6 : Nat) = 5 + 1 from rfl, hr]
    simp [hbad]
  · simp [skipCheck]

/-- Witness for the amended C5: one 200 response with an HTML body; the
item fails after one call, deletes the file, records the error, and the
resulting state is re-attempted by a later run. -/
theorem C5_amended_witness :
    processItem [.http 200 ["<html>rate limit exceeded</html>".toList]] ⟨none, none, none⟩
      = (⟨none, none, some invalidMsg⟩, .failed invalidMsg, 1) ∧
    skipCheck ⟨none, none, some invalidMsg⟩ = false :=
  C5_amended 200 ["<html>rate limit exceeded</html>".toList] [] ⟨none, none, none⟩
    (by decide) (by decide) (by decide)

theorem processItem_eq (rs : List Response) (fs : ItemFS) :
    processItem rs fs
      = if skipCheck fs then (fs, .skip, 0)
        else
          match retryGo 0 6 rs fs with
          | (.ok fs2, n, _) =>
            if looks_like_valid_csv fs2.artifact then (fs2, .published, n)
            else ({ fs2 with artifact := none, err := some invalidMsg }, .failed invalidMsg, n)
          | (.error (.apiError m), n, _) => ({ fs with err := some m }, .failed m, n)
          | (.error (.netErr m), n, _) => ({ fs with err := some m }, .failed m, n) := rfl

theorem processItem_failed_err (rs : List Response) (fs : ItemFS) (m : List Char)
    (h : (processItem rs fs).2.1 = .failed m) :
    ((processItem rs fs).1).err = some m := by
  rw [processItem_eq] at *
  by_cases hs : skipCheck fs
  · simp [hs] at h
  · simp only [hs, if_false, Bool.false_eq_true] at *
    rcases hr : retryGo 0 6 rs fs with ⟨res, n, w⟩
    rcases res with e | fs2
    · rcases e with m2 | m2 <;> simp_all
    · by_cases hv : looks_like_valid_csv fs2.artifact <;> simp_all

/-- Claim C6: a downloaded file whose header row has no column containing
the validity marker (case-insensitively) is deleted from the final
artifact path and never left published; the item ends as a failure with
an error record — and, in general, a `published` outcome always carries a
valid artifact. -/
theorem C6_invalid_header_failure (rs : List Response) (fs fs2 : ItemFS) (n : Nat)
    (w : List Nat) (b : List Char) (header : List (List Char))
    (hskip : skipCheck fs = false)
    (hok : retryGo 0 6 rs fs = (.ok fs2, n, w))
    (hart : fs2.artifact = some b)
    (hheader : parseHeader b = some header)
    (hmark : ∀ c ∈ header, containsGHI c = false) :
    processItem rs fs
      = ({ fs2 with artifact := none, err := some invalidMsg }, .failed invalidMsg, n) ∧
    (∀ rs2 fs3, (processItem rs2 fs3).2.1 = .published →
      looks_like_valid_csv ((processItem rs2 fs3).1).artifact = true) := by
  have hbad : looks_like_valid_csv fs2.artifact = false := by
    rw [hart]
    simp only [looks_like_valid_csv, hheader]
    have hany : header.any containsGHI = false := by
      rw [List.any_eq_false]
      intro x hx
      simp [hmark x hx]
    simp [hany]
  constructor
  · rw [processItem_eq, hskip, hok]
    simp [hbad]
  · intro rs2 fs3 h
    rw [processItem_eq] at *
    by_cases hs3 : skipCheck fs3
    · simp [hs3] at h
    · simp only [hs3, if_false, Bool.false_eq_true] at *
      rcases hr : retryGo 0 6 rs2 fs3 with ⟨res, n2, w2⟩
      rcases res with e | fs4
      · rcases e with m2 | m2 <;> simp_all
      · by_cases hv : looks_like_valid_csv fs4.artifact <;> simp_all

/-- Witness for C6: a 200 response whose body is an HTML error page; the
file is deleted and the item fails with an error record. -/
theorem C6_invalid_header_failure_witness :
    processItem [.http 200 ["<html>busy</html>".toList]] ⟨none, none, none⟩
      = (⟨none, none, some invalidMsg⟩, .failed invalidMsg, 1) :=
  (C6_invalid_header_failure [.http 200 ["<html>busy</html>".toList]] ⟨none, none, none⟩
    ⟨some "<html>busy</html>".toList, none, none⟩ 1 [] "<html>busy</html>".toList
    ["<html>busy</html>".toList] (by decide) (by decide) (by decide) (by decide)
    (by decide)).1

/-- Claim C7: the batch loop processes every work item independently —
its output has one entry per item, each entry is exactly the per-item
result (no item's failure affects any other), and every failed item has
an error record containing the error text. -/
theorem C7_batch_never_halts (items : List (ItemFS × List Response)) :
    (runBatch items).length = items.length ∧
    (∀ i : Nat, (runBatch items)[i]?
      = (items[i]?).map (fun it => ((processItem it.2 it.1).1, (processItem it.2 it.1).2.1))) ∧
    (∀ r ∈ runBatch items, ∀ m, r.2 = .failed m → r.1.err = some m) := by
  refine ⟨by simp [runBatch], fun i => by simp [runBatch], ?_⟩
  intro r hr m hm
  simp only [runBatch, List.mem_map] at hr
  obtain ⟨it, _, hr2⟩ := hr
  rw [← hr2] at hm ⊢
  exact processItem_failed_err it.2 it.1 m hm

/-- Witness for C7: a batch of a failing item (network error) and a
succeeding item; both are processed, and the failed one's error record
holds the error text. -/
theorem C7_batch_never_halts_witness :
    (⟨⟨none, none, some "timeout".toList⟩, Outcome.failed "timeout".toList⟩ :
        ItemFS × Outcome).1.err = some "timeout".toList :=
  (C7_batch_never_halts
      [(⟨none, none, none⟩, [.netError "timeout".toList]),
       (⟨none, none, none⟩, [.http 200 ["Year,GHI\n1".toList]])]).2.2
    ⟨⟨none, none, some "timeout".toList⟩, .failed "timeout".toList⟩ (by decide)
    "timeout".toList (by decide)

/-- Claim C10: error records are never removed by success — a `skip`
leaves the whole filesystem (stale error record included) unchanged, a
`published` outcome leaves the error-record slot unchanged, and the
error-record slot changes only on a terminal failure, to the new error
text. -/
theorem C10_stale_error_records (rs : List Response) (fs : ItemFS) :
    ((processItem rs fs).2.1 = .skip → (processItem rs fs).1 = fs) ∧
    ((processItem rs fs).2.1 = .published → ((processItem rs fs).1).err = fs.err) ∧
    (((processItem rs fs).1).err ≠ fs.err →
      ∃ m, (processItem rs fs).2.1 = .failed m ∧ ((processItem rs fs).1).err = some m) := by
  rw [processItem_eq]
  by_cases hs : skipCheck fs
  · simp [hs]
  · simp only [hs, if_false, Bool.false_eq_true]
    rcases hr : retryGo 0 6 rs fs with ⟨res, n, w⟩
    rcases res with e | fs2
    · rcases e with m2 | m2 <;> simp_all
    · obtain ⟨chunks, hsh⟩ := retryGo_ok_shape 6 0 rs fs fs2 (by rw [hr])
      by_cases hv : looks_like_valid_csv fs2.artifact <;> simp_all

/-- Witness for C10: a run that skips (valid artifact present) leaves a
stale error record from an earlier failed run untouched on disk. -/
theorem C10_stale_error_records_witness :
    (processItem [] ⟨some "Year,GHI\n1".toList, none, some "old error".toList⟩).1
      = ⟨some "Year,GHI\n1".toList, none, some "old error".toList⟩ :=
  (C10_stale_error_records [] ⟨some "Year,GHI\n1".toList, none, some "old error".toList⟩).1
    (by decide)

/-- The artifact file name without its `.csv` extension. -/
def fstem (year : ℤ) (lat lon : ℚ) : List Char :=
  "nsrdb_".toList ++ intStr year ++ '_' :: fmt4 lat ++ '_' :: fmt4 lon

theorem fname_eq_stem (year : ℤ) (lat lon : ℚ) :
    fname year lat lon = fstem year lat lon ++ ".csv".toList := by
  simp [fname, fstem]

theorem with_suffix_csv (l suf : List Char) :
    with_suffix (l ++ ".csv".toList) suf = l ++ suf := by
  unfold with_suffix
  rw [if_pos (by simp)]
  have h1 : (l ++ ".csv".toList).reverse = 'v' :: 's' :: 'c' :: '.' :: l.reverse := by simp
  rw [h1]
  simp [List.dropWhile_cons]

theorem fetch_csv_success (status : Nat) (chunks : List (List Char)) (fs : ItemFS)
    (h : status < 400) :
    fetch_csv (.http status chunks) fs
      = .ok { fs with tmp := none, artifact := some (writtenBody chunks) } := by
  have h429 : status ≠ 429 := by omega
  have hge : ¬ 400 ≤ status := by omega
  simp [fetch_csv, h429, hge]

/-- Claim C2: the body is streamed only to the `.part` sibling of the
final artifact path (same directory, different name); the final path is
touched only by the single atomic rename after the body is fully
written — at every intermediate write state the artifact slot is
unchanged — and any state interrupted before the rename still fails the
skip check, so a subsequent run re-fetches the item. -/
theorem C2_atomic_publish (out_root : List Char) (year : ℤ) (lat lon : ℚ)
    (fs : ItemFS) (chunks : List (List Char)) (status : Nat) :
    (tmp_path out_root year lat lon).dir = (out_path out_root year lat lon).dir ∧
    (tmp_path out_root year lat lon).name = fstem year lat lon ++ ".part".toList ∧
    (tmp_path out_root year lat lon).name ≠ (out_path out_root year lat lon).name ∧
    (∀ s ∈ writeStates fs chunks, s.artifact = fs.artifact ∧ s.err = fs.err) ∧
    (status < 400 → fetch_csv (.http status chunks) fs
      = .ok { fs with tmp := none, artifact := some (writtenBody chunks) }) ∧
    (looks_like_valid_csv fs.artifact = false →
      ∀ s ∈ writeStates fs chunks, skipCheck s = false) := by
  have hname : (tmp_path out_root year lat lon).name = fstem year lat lon ++ ".part".toList := by
    show with_suffix (fname year lat lon) ".part".toList = _
    rw [fname_eq_stem, with_suffix_csv]
  refine ⟨rfl, hname, ?_, ?_, fetch_csv_success status chunks fs, ?_⟩
  · rw [hname]
    show _ ≠ fname year lat lon
    rw [fname_eq_stem]
    intro hcontra
    have := List.append_cancel_left hcontra
    simp at this
  · intro s hs
    simp only [writeStates, List.mem_map] at hs
    obtain ⟨k, _, hk⟩ := hs
    rw [← hk]
    exact ⟨rfl, rfl⟩
  · intro hv s hs
    simp only [writeStates, List.mem_map] at hs
    obtain ⟨k, _, hk⟩ := hs
    rw [← hk]
    simp [skipCheck, hv]

/-- Witness for C2: concrete single-chunk download into an empty slot —
the success equation holds and the intermediate state (partial data at
the `.part` path only) still fails the skip check. -/
theorem C2_atomic_publish_witness :
    fetch_csv (.http 200 ["ab".toList]) ⟨none, none, none⟩
      = .ok ⟨some "ab".toList, none, none⟩ ∧
    skipCheck ⟨none, some "ab".toList, none⟩ = false :=
  ⟨(C2_atomic_publish "data".toList 2020 8 102 ⟨none, none, none⟩ ["ab".toList] 200).2.2.2.2.1
     (by decide),
   (C2_atomic_publish "data".toList 2020 8 102 ⟨none, none, none⟩ ["ab".toList] 200).2.2.2.2.2
     (by decide) ⟨none, some "ab".toList, none⟩ (by decide)⟩

-- Grid enumeration lemmas.

theorem frangeCount_zero (stop step x : ℚ) (hs : 0 < step) (h : ¬ x ≤ stop + tol) :
    frangeCount stop step x = 0 := by
  have hneg : (stop + tol - x) / step < 0 :=
    div_neg_of_neg_of_pos (by linarith) hs
  have hfl : ⌊(stop + tol - x) / step⌋ < 0 := Int.floor_lt.mpr (by exact_mod_cast hneg)
  unfold frangeCount
  omega

theorem frangeCount_succ (stop step x : ℚ) (hs : 0 < step) (h : x ≤ stop + tol) :
    frangeCount stop step x = frangeCount stop step (x + step) + 1 := by
  have hD : (stop + tol - (x + step)) / step = (stop + tol - x) / step - 1 := by
    field_simp
    ring
  have hnn : 0 ≤ (stop + tol - x) / step := div_nonneg (by linarith) hs.le
  have hfl : 0 ≤ ⌊(stop + tol - x) / step⌋ := Int.floor_nonneg.mpr hnn
  unfold frangeCount
  rw [hD, Int.floor_sub_one]
  omega

theorem frangeAux_eq (stop step : ℚ) (hs : 0 < step) :
    ∀ (fuel : Nat) (x : ℚ), frangeCount stop step x ≤ fuel →
    frangeAux stop step fuel x
      = (List.range (frangeCount stop step x)).map (fun i : ℕ => x + (i : ℚ) * step) := by
  intro fuel
  induction fuel with
  | zero =>
    intro x h
    have h0 : frangeCount stop step x = 0 := by omega
    simp [frangeAux, h0]
  | succ n ih =>
    intro x h
    by_cases hx : x ≤ stop + tol
    · rw [frangeCount_succ stop step x hs hx] at h ⊢
      simp only [frangeAux, if_pos hx]
      rw [ih (x + step) (by omega), List.range_succ_eq_map]
      simp only [List.map_cons, List.map_map, Nat.cast_zero, zero_mul, add_zero]
      congr 1
      refine List.map_congr_left ?_
      intro i _
      simp only [Function.comp_apply]
      push_cast
      ring
    · have h0 : frangeCount stop step x = 0 := frangeCount_zero stop step x hs hx
      simp [frangeAux, hx, h0]

theorem frange_eq (start stop step : ℚ) (hs : 0 < step) :
    frange start stop step
      = (List.range (frangeCount stop step start)).map (fun i : ℕ => start + (i : ℚ) * step) :=
  frangeAux_eq stop step hs _ start le_rfl

theorem frange_length (start stop step : ℚ) (hs : 0 < step) :
    (frange start stop step).length = frangeCount stop step start := by
  rw [frange_eq start stop step hs]
  simp

theorem frangeCount_start (start stop step : ℚ) (hs : 0 < step) (h : start ≤ stop)
    (hfl : ⌊(stop + tol - start) / step⌋ = ⌊(stop - start) / step⌋) :
    frangeCount stop step start = (⌊(stop - start) / step⌋).toNat + 1 := by
  have hnn : 0 ≤ (stop - start) / step := div_nonneg (by linarith) hs.le
  have hge : 0 ≤ ⌊(stop - start) / step⌋ := Int.floor_nonneg.mpr hnn
  unfold frangeCount
  rw [hfl]
  omega

theorem frange_mem_bounds (start stop step x : ℚ) (hs : 0 < step) (h : start ≤ stop)
    (hfl : ⌊(stop + tol - start) / step⌋ = ⌊(stop - start) / step⌋)
    (hx : x ∈ frange start stop step) : start ≤ x ∧ x ≤ stop := by
  rw [frange_eq start stop step hs] at hx
  simp only [List.mem_map, List.mem_range] at hx
  obtain ⟨i, hi, rfl⟩ := hx
  rw [frangeCount_start start stop step hs h hfl] at hi
  have hge : 0 ≤ ⌊(stop - start) / step⌋ :=
    Int.floor_nonneg.mpr (div_nonneg (by linarith) hs.le)
  have hile : (i : ℤ) ≤ ⌊(stop - start) / step⌋ := by omega
  have hile2 : (i : ℚ) ≤ (stop - start) / step := by
    have h2 := Int.le_floor.mp hile
    exact_mod_cast h2
  have hmul : (i : ℚ) * step ≤ stop - start := (le_div_iff₀ hs).mp hile2
  constructor
  · have hpos : (0 : ℚ) ≤ (i : ℚ) * step := mul_nonneg (by positivity) hs.le
    linarith
  · linarith

theorem round6_fixed (a : ℤ) : round6 ((a : ℚ) / 1000000) = (a : ℚ) / 1000000 := by
  unfold round6
  rw [div_mul_cancel₀ _ (by norm_num : (1000000 : ℚ) ≠ 0)]
  rw [round_intCast]

theorem generate_points_length (bbox : Bbox) (dlon dlat : ℚ)
    (h1 : 0 < dlon) (h2 : 0 < dlat) :
    (generate_points bbox dlon dlat).length
      = frangeCount bbox.lat_max dlat bbox.lat_min * frangeCount bbox.lon_max dlon bbox.lon_min := by
  unfold generate_points
  rw [List.length_flatMap]
  have hall : ∀ lat ∈ frange bbox.lat_min bbox.lat_max dlat,
      ((frange bbox.lon_min bbox.lon_max dlon).map
        (fun lon => (round6 lat, round6 lon))).length
        = frangeCount bbox.lon_max dlon bbox.lon_min := by
    intro lat _
    rw [List.length_map]
    exact frange_length _ _ _ h1
  simp only [Function.comp_def]
  rw [List.map_congr_left hall, List.map_const', List.sum_replicate, frange_length _ _ _ h2]
  simp [smul_eq_mul]

theorem generate_points_mem (bbox : Bbox) (dlon dlat : ℚ) (p : ℚ × ℚ)
    (hp : p ∈ generate_points bbox dlon dlat) :
    ∃ lat ∈ frange bbox.lat_min bbox.lat_max dlat,
      ∃ lon ∈ frange bbox.lon_min bbox.lon_max dlon,
        p = (round6 lat, round6 lon) := by
  unfold generate_points at hp
  simp only [List.mem_flatMap, List.mem_map] at hp
  obtain ⟨lat, hlat, lon, hlon, rfl⟩ := hp
  exact ⟨lat, hlat, lon, hlon, rfl⟩

theorem frange_mem_round6_fixed (start stop step x : ℚ) (hs : 0 < step)
    (ha : ∃ a : ℤ, start = (a : ℚ) / 1000000) (hb : ∃ b : ℤ, step = (b : ℚ) / 1000000)
    (hx : x ∈ frange start stop step) : round6 x = x := by
  rw [frange_eq _ _ _ hs] at hx
  simp only [List.mem_map, List.mem_range] at hx
  obtain ⟨i, _, rfl⟩ := hx
  obtain ⟨a, rfl⟩ := ha
  obtain ⟨b, rfl⟩ := hb
  have hrep : (a : ℚ) / 1000000 + (i : ℚ) * ((b : ℚ) / 1000000)
      = ((a + i * b : ℤ) : ℚ) / 1000000 := by
    push_cast
    ring
  rw [hrep, round6_fixed]

/-- Amended C8: for a GridSpec with strictly positive steps and min ≤ max
on each axis, when the `1e-9` tolerance does not push the loop across an
extra step boundary (the floors with and without the tolerance agree),
the enumerator yields exactly `(⌊Δlat/dlat⌋+1) · (⌊Δlon/dlon⌋+1)` points —
this count needs nothing else; and when additionally the minima and the
steps are representable at 6 decimal places, every emitted (rounded)
point lies within the bounding box inclusive of both endpoints.  (Without
6-decimal representability the final rounding can push an emitted point
outside the box — see the counterexample.) -/
theorem C8_amended (bbox : Bbox) (dlon dlat : ℚ)
    (h1 : 0 < dlat) (h2 : 0 < dlon)
    (hlat : bbox.lat_min ≤ bbox.lat_max) (hlon : bbox.lon_min ≤ bbox.lon_max)
    (hfl1 : ⌊(bbox.lat_max + tol - bbox.lat_min) / dlat⌋
      = ⌊(bbox.lat_max - bbox.lat_min) / dlat⌋)
    (hfl2 : ⌊(bbox.lon_max + tol - bbox.lon_min) / dlon⌋
      = ⌊(bbox.lon_max - bbox.lon_min) / dlon⌋) :
    (generate_points bbox dlon dlat).length
      = ((⌊(bbox.lat_max - bbox.lat_min) / dlat⌋).toNat + 1)
        * ((⌊(bbox.lon_max - bbox.lon_min) / dlon⌋).toNat + 1) ∧
    ((∃ a : ℤ, bbox.lat_min = (a : ℚ) / 1000000) →
     (∃ b : ℤ, dlat = (b : ℚ) / 1000000) →
     (∃ c : ℤ, bbox.lon_min = (c : ℚ) / 1000000) →
     (∃ d : ℤ, dlon = (d : ℚ) / 1000000) →
     ∀ p ∈ generate_points bbox dlon dlat,
       bbox.lat_min ≤ p.1 ∧ p.1 ≤ bbox.lat_max ∧ bbox.lon_min ≤ p.2 ∧ p.2 ≤ bbox.lon_max) := by
  constructor
  · rw [generate_points_length bbox dlon dlat h2 h1,
      frangeCount_start _ _ _ h1 hlat hfl1, frangeCount_start _ _ _ h2 hlon hfl2]
  · intro ha hb hc hd p hp
    obtain ⟨lat, hlatmem, lon, hlonmem, rfl⟩ := generate_points_mem bbox dlon dlat p hp
    have hlatfix := frange_mem_round6_fixed _ _ _ lat h1 ha hb hlatmem
    have hlonfix := frange_mem_round6_fixed _ _ _ lon h2 hc hd hlonmem
    have hlatb := frange_mem_bounds _ _ _ lat h1 hlat hfl1 hlatmem
    have hlonb := frange_mem_bounds _ _ _ lon h2 hlon hfl2 hlonmem
    refine ⟨?_, ?_, ?_, ?_⟩ <;> simp only [hlatfix, hlonfix]
    · exact hlatb.1
    · exact hlatb.2
    · exact hlonb.1
    · exact hlonb.2

/-- Witness for the amended C8: the box 8–9 × 102–103 with 0.5° steps
yields exactly (2+1)·(2+1) = 9 points, and its emitted point (8, 102)
lies within the box. -/
theorem C8_amended_witness :
    (generate_points ⟨8, 9, 102, 103⟩ (1/2) (1/2)).length = 9 ∧
    ((8 : ℚ) ≤ 8 ∧ (8 : ℚ) ≤ 9 ∧ (102 : ℚ) ≤ 102 ∧ (102 : ℚ) ≤ 103) := by
  have h := C8_amended ⟨8, 9, 102, 103⟩ (1/2) (1/2) (by norm_num) (by norm_num)
    (by norm_num) (by norm_num) (by norm_num [tol]) (by norm_num [tol])
  constructor
  · rw [h.1]
    norm_num
    decide
  · have hmem : ((8 : ℚ), (102 : ℚ)) ∈ generate_points ⟨8, 9, 102, 103⟩ (1/2) (1/2) := by
      have hgen : generate_points ⟨8, 9, 102, 103⟩ (1/2) (1/2)
          = [(8, 102), (8, 205/2), (8, 103), (17/2, 102), (17/2, 205/2), (17/2, 103),
             (9, 102), (9, 205/2), (9, 103)] := by
        norm_num [generate_points, frange, frangeCount, frangeAux, tol, round6, round_eq]
      rw [hgen]
      norm_num
    exact h.2 ⟨8000000, by norm_num⟩ ⟨500000, by norm_num⟩ ⟨102000000, by norm_num⟩
      ⟨500000, by norm_num⟩ (8, 102) hmem

/-- Counterexample for C8: a valid GridSpec (positive steps, min ≤ max)
whose latitude bound is not representable at 6 decimal places: the
single enumerated point is rounded to 0.123456, strictly below
`lat_min = 0.12345649` — an emitted point outside the bounding box. -/
theorem C8_cex :
    (0 : ℚ) < 1 ∧
    (12345649/100000000 : ℚ) ≤ 12345649/100000000 ∧
    generate_points ⟨12345649/100000000, 12345649/100000000, 102, 102⟩ 1 1
      = [(123456/1000000, 102)] ∧
    (123456/1000000 : ℚ) < 12345649/100000000 := by
  refine ⟨by norm_num, le_refl _, ?_, by norm_num⟩
  norm_num [generate_points, frange, frangeCount, frangeAux, tol, round6, round_eq]

-- Decimal-rendering lemmas (towards path injectivity).

theorem digitChar_toNat : ∀ d, d < 10 → (digitChar d).toNat = 48 + d := by decide

theorem natDigitsRev_lt : ∀ (fuel n d : Nat), d ∈ natDigitsRev fuel n → d < 10 := by
  intro fuel
  induction fuel with
  | zero => intro n d h; simp [natDigitsRev] at h
  | succ m ih =>
    intro n d h
    by_cases hn : n = 0
    · simp [natDigitsRev, hn] at h
    · simp only [natDigitsRev, if_neg hn, List.mem_cons] at h
      rcases h with h | h
      · omega
      · exact ih (n / 10) d h

/-- The value of a little-endian digit list. -/
def valLE : List Nat → Nat
  | [] => 0
  | d :: ds => d + 10 * valLE ds

theorem valLE_natDigitsRev : ∀ (fuel n : Nat), n < fuel → valLE (natDigitsRev fuel n) = n := by
  intro fuel
  induction fuel with
  | zero => intro n h; omega
  | succ m ih =>
    intro n h
    by_cases hn : n = 0
    · simp [natDigitsRev, hn, valLE]
    · have hdiv : n / 10 < m := by
        have h1 : n / 10 < n := Nat.div_lt_self (by omega) (by omega)
        omega
      simp only [natDigitsRev, if_neg hn, valLE, ih (n / 10) hdiv]
      omega

/-- The value read back from a big-endian ASCII digit string. -/
def valBE (l : List Char) : Nat :=
  l.foldl (fun a c => 10 * a + (c.toNat - 48)) 0

theorem foldl_digit_chars (ds : List Nat) : ∀ a : Nat, (∀ d ∈ ds, d < 10) →
    (ds.reverse.map digitChar).foldl (fun a c => 10 * a + (c.toNat - 48)) a
      = a * 10 ^ ds.length + valLE ds := by
  induction ds with
  | nil => intro a _; simp [valLE]
  | cons d rest ih =>
    intro a h
    have hd : d < 10 := h d (by simp)
    simp only [List.reverse_cons, List.map_append, List.foldl_append,
      ih a (fun x hx => h x (by simp [hx])), List.map_cons, List.map_nil, List.foldl_cons,
      List.foldl_nil, valLE, List.length_cons]
    rw [digitChar_toNat d hd]
    ring_nf
    omega

theorem valBE_natStr (n : Nat) : valBE (natStr n) = n := by
  unfold natStr valBE
  by_cases hn : n = 0
  · simp [hn]
  · rw [if_neg hn,
      foldl_digit_chars (natDigitsRev (n + 1) n) 0 (fun d hd => natDigitsRev_lt (n + 1) n d hd),
      valLE_natDigitsRev (n + 1) n (by omega)]
    omega

theorem natStr_inj (m n : Nat) (h : natStr m = natStr n) : m = n := by
  rw [← valBE_natStr m, h, valBE_natStr]

theorem natStr_mem_digit (n : Nat) : ∀ c ∈ natStr n, 48 ≤ c.toNat ∧ c.toNat ≤ 57 := by
  intro c hc
  unfold natStr at hc
  by_cases hn : n = 0
  · simp [hn] at hc
    rw [hc]
    decide
  · rw [if_neg hn] at hc
    simp only [List.mem_map, List.mem_reverse] at hc
    obtain ⟨d, hd, rfl⟩ := hc
    have hlt := natDigitsRev_lt (n + 1) n d hd
    rw [digitChar_toNat d hlt]
    omega

theorem natStr_ne_nil (n : Nat) : natStr n ≠ [] := by
  unfold natStr
  by_cases hn : n = 0
  · simp [hn]
  · rw [if_neg hn]
    simp only [ne_eq, List.map_eq_nil_iff, List.reverse_eq_nil_iff]
    simp [natDigitsRev, hn]

theorem append_sep_inj (sep : Char) : ∀ (l1 l2 r1 r2 : List Char), sep ∉ l1 → sep ∉ l2 →
    l1 ++ sep :: r1 = l2 ++ sep :: r2 → l1 = l2 ∧ r1 = r2 := by
  intro l1
  induction l1 with
  | nil =>
    intro l2 r1 r2 _ h2 h
    cases l2 with
    | nil => simpa using h
    | cons c cs =>
      simp only [List.nil_append, List.cons_append, List.cons.injEq] at h
      exact absurd (h.1 ▸ List.mem_cons_self c cs) h2
  | cons c cs ih =>
    intro l2 r1 r2 h1 h2 h
    cases l2 with
    | nil =>
      simp only [List.nil_append, List.cons_append, List.cons.injEq] at h
      exact absurd (h.1 ▸ List.mem_cons_self c cs) h1
    | cons d ds =>
      simp only [List.cons_append, List.cons.injEq] at h
      obtain ⟨hcd, hrest⟩ := h
      have hr := ih ds r1 r2 (fun hm => h1 (List.mem_cons_of_mem c hm))
        (fun hm => h2 (hcd ▸ List.mem_cons_of_mem d hm)) hrest
      exact ⟨by rw [hcd, hr.1], hr.2⟩

theorem valBE_pad4 (b : Nat) : valBE (pad4 b) = b := by
  unfold pad4 valBE
  rw [List.foldl_append]
  have hz : ∀ k, List.foldl (fun a c => 10 * a + (c.toNat - 48)) 0 (List.replicate k '0') = 0 := by
    intro k
    induction k with
    | zero => simp
    | succ m ih => simpa [List.replicate_succ] using ih
  rw [hz]
  exact valBE_natStr b

theorem pad4_inj (b1 b2 : Nat) (h : pad4 b1 = pad4 b2) : b1 = b2 := by
  rw [← valBE_pad4 b1, h, valBE_pad4]

theorem pad4_mem_digit (b : Nat) : ∀ c ∈ pad4 b, 48 ≤ c.toNat ∧ c.toNat ≤ 57 := by
  intro c hc
  unfold pad4 at hc
  rcases List.mem_append.mp hc with hr | hn
  · have := List.eq_of_mem_replicate hr
    rw [this]
    decide
  · exact natStr_mem_digit b c hn

theorem intStr_inj (z1 z2 : ℤ) (h : intStr z1 = intStr z2) : z1 = z2 := by
  unfold intStr at h
  have habs : ∀ (a b : ℤ), ('-' :: natStr a.natAbs : List Char) = natStr b.natAbs → False := by
    intro a b hab
    cases hb : natStr b.natAbs with
    | nil => exact natStr_ne_nil b.natAbs hb
    | cons c cs =>
      rw [hb] at hab
      have hc := natStr_mem_digit b.natAbs c (hb ▸ List.mem_cons_self c cs)
      have hminus : c = '-' := (List.cons.injEq _ _ _ _ ▸ hab).1.symm
      rw [hminus] at hc
      revert hc
      decide
  by_cases h1 : z1 < 0 <;> by_cases h2 : z2 < 0 <;> simp only [h1, h2, if_pos, if_neg,
    List.cons_append, List.nil_append, if_true, if_false, reduceIte] at h
  · have := natStr_inj z1.natAbs z2.natAbs (by simpa using h)
    omega
  · exact absurd h (fun hh => habs z1 z2 (by simpa using hh))
  · exact absurd h.symm (fun hh => habs z2 z1 (by simpa using hh))
  · have := natStr_inj z1.natAbs z2.natAbs h
    omega

theorem natStr_no_dot (n : Nat) : ('.' : Char) ∉ natStr n := by
  intro hm
  have := natStr_mem_digit n '.' hm
  revert this
  decide

theorem fmt4_eq_iff (q1 q2 : ℚ) :
    fmt4 q1 = fmt4 q2
      ↔ (decide (q1 < 0) = decide (q2 < 0)
          ∧ (round (q1 * 10000)).natAbs = (round (q2 * 10000)).natAbs) := by
  constructor
  · intro h
    unfold fmt4 at h
    have hcore : ∀ (a b : Nat),
        (natStr (a / 10000) ++ '.' :: pad4 (a % 10000) : List Char)
          = natStr (b / 10000) ++ '.' :: pad4 (b % 10000) → a = b := by
      intro a b hab
      obtain ⟨hq, hr⟩ := append_sep_inj '.' _ _ _ _ (natStr_no_dot _) (natStr_no_dot _) hab
      have h1 := natStr_inj _ _ hq
      have h2 := pad4_inj _ _ hr
      omega
    have hsign : ∀ (a b : Nat),
        ('-' :: (natStr (a / 10000) ++ '.' :: pad4 (a % 10000)) : List Char)
          = natStr (b / 10000) ++ '.' :: pad4 (b % 10000) → False := by
      intro a b hab
      cases hb : natStr (b / 10000) with
      | nil => exact natStr_ne_nil _ hb
      | cons c cs =>
        rw [hb] at hab
        have hc := natStr_mem_digit (b / 10000) c (hb ▸ List.mem_cons_self c cs)
        have hminus : c = '-' := by
          have := (List.cons.injEq _ _ _ _ ▸ hab).1
          simpa using this.symm
        rw [hminus] at hc
        revert hc
        decide
    by_cases h1 : q1 < 0 <;> by_cases h2 : q2 < 0 <;>
      simp only [h1, h2, if_true, if_false, reduceIte, List.cons_append, List.nil_append,
        decide_eq_true_eq] at h ⊢
    · refine ⟨by simp [h1, h2], hcore _ _ (by simpa using h)⟩
    · exact absurd h (fun hh => hsign _ _ (by simpa using hh))
    · exact absurd h.symm (fun hh => hsign _ _ (by simpa using hh))
    · refine ⟨by simp [h1, h2], hcore _ _ h⟩
  · rintro ⟨hs, hn⟩
    have hiff : q1 < 0 ↔ q2 < 0 := by
      constructor <;> intro hq
      · by_contra hq2
        simp [hq, hq2] at hs
      · by_contra hq1
        simp [hq, hq1] at hs
    unfold fmt4
    rw [hn]
    by_cases h1 : q1 < 0
    · rw [if_pos h1, if_pos (hiff.mp h1)]
    · rw [if_neg h1, if_neg (fun hq2 => h1 (hiff.mpr hq2))]

theorem intStr_no_underscore (z : ℤ) : ('_' : Char) ∉ intStr z := by
  intro hm
  unfold intStr at hm
  rcases List.mem_append.mp hm with hs | hn
  · by_cases hz : z < 0
    · rw [if_pos hz] at hs
      revert hs
      decide
    · rw [if_neg hz] at hs
      simp at hs
  · have := natStr_mem_digit z.natAbs '_' hn
    revert this
    decide

theorem fmt4_no_underscore (q : ℚ) : ('_' : Char) ∉ fmt4 q := by
  intro hm
  unfold fmt4 at hm
  rcases List.mem_append.mp hm with hs | hdotpad
  · rcases List.mem_append.mp hs with hsign | hn
    · by_cases hq : q < 0
      · rw [if_pos hq] at hsign
        revert hsign
        decide
      · rw [if_neg hq] at hsign
        simp at hsign
    · have := natStr_mem_digit _ '_' hn
      revert this
      decide
  · rcases List.mem_cons.mp hdotpad with hdot | hpad
    · revert hdot
      decide
    · have := pad4_mem_digit _ '_' hpad
      revert this
      decide

theorem fname_eq_iff (y1 y2 : ℤ) (lat1 lon1 lat2 lon2 : ℚ) :
    fname y1 lat1 lon1 = fname y2 lat2 lon2
      ↔ (y1 = y2 ∧ fmt4 lat1 = fmt4 lat2 ∧ fmt4 lon1 = fmt4 lon2) := by
  constructor
  · intro h
    unfold fname at h
    have h1 := List.append_cancel_left h
    obtain ⟨hy, hrest⟩ := append_sep_inj '_' _ _ _ _ (intStr_no_underscore y1)
      (intStr_no_underscore y2) h1
    obtain ⟨hlat, hrest2⟩ := append_sep_inj '_' _ _ _ _ (fmt4_no_underscore lat1)
      (fmt4_no_underscore lat2) hrest
    have hlon := List.append_cancel_right hrest2
    exact ⟨intStr_inj _ _ hy, hlat, hlon⟩
  · rintro ⟨rfl, h1, h2⟩
    unfold fname
    rw [h1, h2]

/-- Counterexample for C9: the GridSpec 8…8.00001 × 102 with step 1e-5 is
valid (positive steps, min ≤ max) and enumerates two distinct WorkItems,
but both publish to the same artifact path — 4-decimal filename
formatting collapses them. -/
theorem C9_cex :
    (0 : ℚ) < 1/100000 ∧
    (8 : ℚ) ≤ 800001/100000 ∧
    generate_points ⟨8, 800001/100000, 102, 102⟩ 1 (1/100000)
      = [(8, 102), (800001/100000, 102)] ∧
    ((8 : ℚ), (102 : ℚ)) ≠ ((800001/100000 : ℚ), (102 : ℚ)) ∧
    out_path "out".toList 2020 8 102 = out_path "out".toList 2020 (800001/100000) 102 := by
  refine ⟨by norm_num, by norm_num, ?_, by norm_num, ?_⟩
  · norm_num [generate_points, frange, frangeCount, frangeAux, tol, round6, round_eq]
  · have hr1 : round ((8 : ℚ) * 10000) = 80000 := by norm_num [round_eq]
    have hr2 : round ((800001/100000 : ℚ) * 10000) = 80000 := by norm_num [round_eq]
    have hl1 : ¬((8 : ℚ) < 0) := by norm_num
    have hl2 : ¬((800001/100000 : ℚ) < 0) := by norm_num
    simp [out_path, fname, fmt4, hr1, hr2, hl1, hl2]

/-- Amended C9: the artifact path is a deterministic function of the
year and the 4-decimal renderings of the coordinates — two paths are
equal exactly when the years are equal and the coordinates render
identically at 4 decimal places (so the mapping is injective precisely
on grids whose distinct points differ at 4-decimal precision, and can
collide for finer grids); the example WorkItem {2020, (8.0, 102.0)}
publishes at `nsrdb_2020_8.0000_102.0000.csv`. -/
theorem C9_amended (out_root : List Char) (y1 y2 : ℤ) (lat1 lon1 lat2 lon2 : ℚ) :
    (out_path out_root y1 lat1 lon1 = out_path out_root y2 lat2 lon2
      ↔ y1 = y2 ∧ fmt4 lat1 = fmt4 lat2 ∧ fmt4 lon1 = fmt4 lon2) ∧
    (fmt4 lat1 = fmt4 lat2
      ↔ (decide (lat1 < 0) = decide (lat2 < 0)
          ∧ (round (lat1 * 10000)).natAbs = (round (lat2 * 10000)).natAbs)) ∧
    fname 2020 8 102 = "nsrdb_2020_8.0000_102.0000.csv".toList := by
  refine ⟨?_, fmt4_eq_iff lat1 lat2, ?_⟩
  · constructor
    · intro h
      have hname : fname y1 lat1 lon1 = fname y2 lat2 lon2 := congrArg PathPair.name h
      exact (fname_eq_iff y1 y2 lat1 lon1 lat2 lon2).mp hname
    · rintro ⟨rfl, h1, h2⟩
      have hname := (fname_eq_iff y1 y1 lat1 lon1 lat2 lon2).mpr ⟨rfl, h1, h2⟩
      unfold out_path
      rw [hname]
  · have hr1 : round ((8 : ℚ) * 10000) = 80000 := by norm_num [round_eq]
    have hr2 : round ((102 : ℚ) * 10000) = 1020000 := by norm_num [round_eq]
    have hl1 : ¬((8 : ℚ) < 0) := by norm_num
    have hl2 : ¬((102 : ℚ) < 0) := by norm_num
    simp only [fname, fmt4, hr1, hr2, if_neg hl1, if_neg hl2]
    decide

/-- Witness for the amended C9: two coordinate pairs that differ by 1e-5
produce equal paths, and the equivalence recovers that their 4-decimal
renderings agree. -/
theorem C9_amended_witness :
    (2020 : ℤ) = 2020 ∧ fmt4 (8 : ℚ) = fmt4 (800001/100000 : ℚ) ∧
      fmt4 (102 : ℚ) = fmt4 (102 : ℚ) :=
  (C9_amended "out".toList 2020 2020 8 102 (800001/100000) 102).1.mp (by
    have hr1 : round ((8 : ℚ) * 10000) = 80000 := by norm_num [round_eq]
    have hr2 : round ((800001/100000 : ℚ) * 10000) = 80000 := by norm_num [round_eq]
    have hl1 : ¬((8 : ℚ) < 0) := by norm_num
    have hl2 : ¬((800001/100000 : ℚ) < 0) := by norm_num
    simp [out_path, fname, fmt4, hr1, hr2, hl1, hl2])
